import Mathlib

/-!
Shallow embedding of `crypto_hustler_bot.py` (Flask account-ledger service).

The JSON user store is modelled as an association list keyed by the string
user id (Python dicts are insertion-ordered; lookups scan in order).  The
`first_deposit` dictionary key may be absent in principle, and the bonus
check in `update_user_balance` tests key *presence*, so that field is
modelled as `Option Bool` (`none` = key absent).  Likewise the ad-hoc
`current_question` key is `Option QuizQuestion`.  Wall-clock times are
integers counting whole seconds; balances and rewards are rationals.
Random draws (`random.uniform`, `random.choice`), freshly generated session
tokens, and the bcrypt hash/verify capability are passed in as parameters.
-/

namespace CryptoHustler

/-- MINING_INTERVAL = 10 (minutes), expressed in seconds. -/
def MINING_INTERVAL_SECONDS : Int := 600

/-- SLOT_MACHINE_COST = 0.0001. -/
def SLOT_MACHINE_COST : ℚ := 1/10000

/-- The slot reel alphabet: symbols = ["A", "B", "C", "D", "7", "X"]. -/
def symbols : List String := ["A", "B", "C", "D", "7", "X"]

/-- One entry of QUIZ_QUESTIONS: question text, options, 0-based answer index. -/
structure QuizQuestion where
  question : String
  options : List String
  answer_index : Int
deriving DecidableEq

/-- The fixed QUIZ_QUESTIONS pool (answer indices as in the source). -/
def QUIZ_QUESTIONS : List QuizQuestion :=
  [ { question := "Which of the following is the first decentralized cryptocurrency?"
      options := ["Ethereum", "Bitcoin", "Litecoin", "Ripple"]
      answer_index := 1 }
  , { question := "What is the purpose of blockchain consensus algorithms?"
      options := ["Generate random numbers", "Securely agree on the state of the ledger",
                  "Create user interfaces", "Store private keys"]
      answer_index := 1 }
  , { question := "Which term describes the maximum number of coins that will exist for Bitcoin?"
      options := ["Market Cap", "Blockchain Size", "Coin Supply", "Max Supply of 21 million"]
      answer_index := 3 }
  , { question := "Which crypto platform introduced smart contracts first?"
      options := ["Cardano", "Ethereum", "Tron", "Polkadot"]
      answer_index := 1 }
  , { question := "What does HODL mean in crypto slang?"
      options := ["A type of hardware wallet", "Hold on for dear life",
                  "Hackers only do Litecoin", "A new coin listing"]
      answer_index := 1 } ]

/-- One user record of the JSON store (the value under a string user-id key). -/
structure UserRecord where
  email : String
  password : String
  balance : ℚ
  session_token : Option String
  last_passive_mine : Int
  next_quiz_attempt : Int
  slot_machine_unlocked : Bool
  /-- `none` models the "first_deposit" dictionary key being absent;
  `some b` models the key being present with boolean value `b`. -/
  first_deposit : Option Bool
  /-- `none` models the "current_question" dictionary key being absent. -/
  current_question : Option QuizQuestion
deriving DecidableEq

/-- The user store: the JSON dict as an ordered association list. -/
abbrev Store := List (String × UserRecord)

/-- Dictionary lookup `users.get(user_id)` / `users[user_id]`. -/
def lookupUser (users : Store) (user_id : String) : Option UserRecord :=
  (List.find? (fun p => p.1 == user_id) users).map (fun p => p.2)

/-- Dictionary assignment `users[user_id] = f(users[user_id])`: rewrite the
entry under the given key, leave every other entry unchanged. -/
def updateUser (users : Store) (user_id : String) (f : UserRecord → UserRecord) : Store :=
  List.map (fun p => if p.1 = user_id then (p.1, f p.2) else p) users

/-- `get_user_by_session_token`: scan the store in order for a record whose
session_token equals the given token; return the owning (user_id, data). -/
def get_user_by_session_token (users : Store) (session_token : String) :
    Option (String × UserRecord) :=
  List.find? (fun p => p.2.session_token == some session_token) users

/-- `update_user_balance(user_id, amount)`: if the user exists, credit the
balance; the doubling bonus fires exactly when the "first_deposit" key is
absent from the record (the code tests `"first_deposit" not in users[...]`),
in which case the key is set to True.  Returns the new store and the
function's boolean result. -/
def update_user_balance (users : Store) (user_id : String) (amount : ℚ) :
    Store × Bool :=
  match lookupUser users user_id with
  | none => (users, false)
  | some u =>
    if u.first_deposit = none then
      (updateUser users user_id
        (fun v => { v with balance := v.balance + amount * 2, first_deposit := some true }),
       true)
    else
      (updateUser users user_id (fun v => { v with balance := v.balance + amount }), true)

/-- A webhook JSON body: each field is `none` when the key is absent.
For pay_amount, `some none` models a present value that `float(...)` cannot
convert, `some (some q)` a present convertible value. -/
structure WebhookPayload where
  order_id : Option String
  payment_status : Option String
  pay_amount : Option (Option ℚ)
deriving DecidableEq

/-- Outcome of the /webhook route (HTTP status it answers with). -/
inductive WebhookResult
  /-- 400: body missing, or order_id / payment_status key absent. -/
  | invalidData
  /-- Unhandled exception from `float(data["pay_amount"])` (HTTP 500). -/
  | typeError
  /-- 200 "Balance updated" (returned even when the order_id is unknown). -/
  | success
  /-- 202 "Waiting for payment". -/
  | pending
deriving DecidableEq

/-- `nowpayments_webhook`: validate presence of order_id and payment_status,
convert pay_amount, and on status "finished" credit via update_user_balance
(whose boolean result is ignored). -/
def nowpayments_webhook (users : Store) (data : Option WebhookPayload) :
    Store × WebhookResult :=
  match data with
  | none => (users, .invalidData)
  | some d =>
    match d.order_id, d.payment_status with
    | some user_id, some payment_status =>
      match d.pay_amount with
      | some (some amount_received) =>
        if payment_status = "finished" then
          ((update_user_balance users user_id amount_received).1, .success)
        else
          (users, .pending)
      | _ => (users, .typeError)
    | _, _ => (users, .invalidData)

/-- Outcome of the /register route. -/
inductive RegisterResult
  | missingFields
  | emailTaken
  | registered (user_id session_token : String)
deriving DecidableEq

/-- `register_user`: requires email and password, rejects duplicate emails,
assigns user id `len(users) + 1`, and initialises the fresh record (both
timestamps to now, balance 0, first_deposit key present and False).
The bcrypt hash and the generated session token are parameters. -/
def register_user (users : Store) (email password : Option String)
    (hashpw : String → String) (token : String) (now : Int) :
    Store × RegisterResult :=
  match email, password with
  | some email, some password =>
    if email = "" ∨ password = "" then (users, .missingFields)
    else if List.any users (fun p => p.2.email == email) then (users, .emailTaken)
    else
      let user_id := toString (List.length users + 1)
      let record : UserRecord :=
        { email := email
          password := hashpw password
          balance := 0
          session_token := some token
          last_passive_mine := now
          next_quiz_attempt := now
          slot_machine_unlocked := false
          first_deposit := some false
          current_question := none }
      (users ++ [(user_id, record)], .registered user_id token)
  | _, _ => (users, .missingFields)

/-- Outcome of the /login route. -/
inductive LoginResult
  | missingFields
  | invalidCredentials
  | ok (session_token : String)
deriving DecidableEq

/-- The login scan: first record whose email matches and whose stored bcrypt
hash verifies against the submitted password. -/
def findCredential (verify : String → String → Bool) (users : Store)
    (email password : String) : Option (String × UserRecord) :=
  List.find? (fun p => p.2.email == email && verify password p.2.password) users

/-- `login_user`: on a credential match, store a freshly generated session
token (parameter `new_token`) on that user, invalidating the previous one. -/
def login_user (verify : String → String → Bool) (users : Store)
    (email password : Option String) (new_token : String) : Store × LoginResult :=
  match email, password with
  | some email, some password =>
    if email = "" ∨ password = "" then (users, .missingFields)
    else
      match findCredential verify users email password with
      | some (uid, _) =>
        (updateUser users uid (fun u => { u with session_token := some new_token }),
         .ok new_token)
      | none => (users, .invalidCredentials)
  | _, _ => (users, .missingFields)

/-- Outcome of the /logout route. -/
inductive LogoutResult
  | noToken
  | invalidToken
  | ok
deriving DecidableEq

/-- `logout_user`: clear the session token of the record holding it. -/
def logout_user (users : Store) (session_token : Option String) :
    Store × LogoutResult :=
  match session_token with
  | none => (users, .noToken)
  | some tok =>
    match get_user_by_session_token users tok with
    | some (uid, _) =>
      (updateUser users uid (fun u => { u with session_token := none }), .ok)
    | none => (users, .invalidToken)

/-- Outcome of the /mine route. -/
inductive MineResult
  /-- 401: Authorization header absent. -/
  | authRequired
  /-- 401: token resolves to no user. -/
  | invalidToken
  /-- 200: reward credited; carries mined amount and the new balance. -/
  | success (mined new_balance : ℚ)
  /-- 400: `remaining.seconds//60` minutes, `remaining.seconds%60` seconds. -/
  | cooldown (minutes seconds : Int)
deriving DecidableEq

/-- `mine_command`: if at least MINING_INTERVAL minutes have passed since
last_passive_mine, credit the drawn reward (parameter `mined_amount`, the
`random.uniform(0.0001, 0.001)` draw) directly to the balance and stamp
last_passive_mine = now; otherwise report the remaining wait.  Python's
`timedelta.seconds` is the whole-seconds component of the (positive)
remainder, i.e. the remainder modulo one day (86400 s). -/
def mine_command (users : Store) (session_token : Option String) (now : Int)
    (mined_amount : ℚ) : Store × MineResult :=
  match session_token with
  | none => (users, .authRequired)
  | some tok =>
    match get_user_by_session_token users tok with
    | none => (users, .invalidToken)
    | some (user_id, user_data) =>
      if MINING_INTERVAL_SECONDS ≤ now - user_data.last_passive_mine then
        let new_balance := user_data.balance + mined_amount
        (updateUser users user_id
           (fun u => { u with balance := new_balance, last_passive_mine := now }),
         .success mined_amount new_balance)
      else
        let remaining :=
          Int.emod (user_data.last_passive_mine + MINING_INTERVAL_SECONDS - now) 86400
        (users, .cooldown (Int.ediv remaining 60) (Int.emod remaining 60))

/-- Outcome of GET /quiz. -/
inductive QuizGetResult
  | authRequired
  | invalidToken
  /-- 400: on cooldown; carries `(next_attempt_time - now).seconds`. -/
  | cooldown (wait_seconds : Int)
  /-- 200: question text and options (never the answer index). -/
  | question (text : String) (options : List String)
deriving DecidableEq

/-- GET /quiz: if now is before next_quiz_attempt fail with the cooldown,
else store the drawn question (parameter `question_data`, the
`random.choice(QUIZ_QUESTIONS)` draw) as current_question and return it. -/
def quiz_command_get (users : Store) (session_token : Option String) (now : Int)
    (question_data : QuizQuestion) : Store × QuizGetResult :=
  match session_token with
  | none => (users, .authRequired)
  | some tok =>
    match get_user_by_session_token users tok with
    | none => (users, .invalidToken)
    | some (user_id, user_data) =>
      if now < user_data.next_quiz_attempt then
        (users, .cooldown (Int.emod (user_data.next_quiz_attempt - now) 86400))
      else
        (updateUser users user_id
           (fun u => { u with current_question := some question_data }),
         .question question_data.question question_data.options)

/-- Outcome of POST /quiz. -/
inductive QuizPostResult
  | authRequired
  | invalidToken
  /-- 400: "No active quiz question. Please GET /quiz first." -/
  | noActiveQuestion
  /-- 400: chosen_index is missing or not an integer. -/
  | invalidAnswerIndex
  /-- 200: correct; carries the reward and the new balance. -/
  | correct (reward new_balance : ℚ)
  /-- 200: incorrect; carries the cooldown deadline. -/
  | incorrect (cooldown_until : Int)
deriving DecidableEq

/-- POST /quiz: reject when no current_question is stored; validate the
submitted index; on a correct answer credit the drawn reward (parameter
`reward`, the `random.uniform(0.00001, 0.00005)` draw) and delete the
question; on a wrong answer set next_quiz_attempt = now + 1 minute and
delete the question, leaving the balance unchanged. -/
def quiz_command_post (users : Store) (session_token : Option String)
    (chosen_index : Option Int) (now : Int) (reward : ℚ) :
    Store × QuizPostResult :=
  match session_token with
  | none => (users, .authRequired)
  | some tok =>
    match get_user_by_session_token users tok with
    | none => (users, .invalidToken)
    | some (user_id, user_data) =>
      match user_data.current_question with
      | none => (users, .noActiveQuestion)
      | some current_q =>
        match chosen_index with
        | none => (users, .invalidAnswerIndex)
        | some chosen =>
          if chosen = current_q.answer_index then
            let new_balance := user_data.balance + reward
            (updateUser users user_id
               (fun u => { u with balance := new_balance, current_question := none }),
             .correct reward new_balance)
          else
            let next_time := now + 60
            (updateUser users user_id
               (fun u => { u with next_quiz_attempt := next_time,
                                  current_question := none }),
             .incorrect next_time)

/-- Slot spin outcome classification, in the code's priority order. -/
inductive SlotOutcome
  | jackpot (prize : ℚ)
  | smallWin (prize : ℚ)
  | loss
deriving DecidableEq

/-- Outcome of the /slots route. -/
inductive SlotsResult
  | authRequired
  | invalidToken
  /-- 400: balance below SLOT_MACHINE_COST. -/
  | insufficientBalance
  /-- 200: the three reel symbols, the outcome, and the new balance. -/
  | spun (r0 r1 r2 : String) (outcome : SlotOutcome) (new_balance : ℚ)
deriving DecidableEq

/-- `slots_command`: refuse when balance < SLOT_MACHINE_COST; otherwise
deduct the cost, spin the three reels (parameters `r0 r1 r2`, the three
`random.choice(symbols)` draws), then resolve: all three equal pays the
jackpot draw (parameter `jackpot_prize`, `random.uniform(0.001, 0.002)`);
else any pairwise match pays the small-win draw (parameter `small_win`,
`random.uniform(0.00005, 0.0001)`); else nothing is credited. -/
def slots_command (users : Store) (session_token : Option String)
    (r0 r1 r2 : String) (jackpot_prize small_win : ℚ) : Store × SlotsResult :=
  match session_token with
  | none => (users, .authRequired)
  | some tok =>
    match get_user_by_session_token users tok with
    | none => (users, .invalidToken)
    | some (user_id, user_data) =>
      if user_data.balance < SLOT_MACHINE_COST then
        (users, .insufficientBalance)
      else
        let after_cost := user_data.balance - SLOT_MACHINE_COST
        if r0 = r1 ∧ r1 = r2 then
          (updateUser users user_id
             (fun u => { u with balance := after_cost + jackpot_prize }),
           .spun r0 r1 r2 (.jackpot jackpot_prize) (after_cost + jackpot_prize))
        else if r0 = r1 ∨ r1 = r2 ∨ r0 = r2 then
          (updateUser users user_id
             (fun u => { u with balance := after_cost + small_win }),
           .spun r0 r1 r2 (.smallWin small_win) (after_cost + small_win))
        else
          (updateUser users user_id (fun u => { u with balance := after_cost }),
           .spun r0 r1 r2 .loss after_cost)

/-- One inbound event of the service: a state-mutating route invocation with
its external inputs (headers, body, clock reading, and random draws). -/
inductive Op
  | register (email password : Option String) (hashpw : String → String)
      (token : String) (now : Int)
  | login (verify : String → String → Bool) (email password : Option String)
      (new_token : String)
  | logout (session_token : Option String)
  | mine (session_token : Option String) (now : Int) (mined_amount : ℚ)
  | quizGet (session_token : Option String) (now : Int) (q : QuizQuestion)
  | quizPost (session_token : Option String) (chosen_index : Option Int)
      (now : Int) (reward : ℚ)
  | slots (session_token : Option String) (r0 r1 r2 : String)
      (jackpot_prize small_win : ℚ)
  | webhook (data : Option WebhookPayload)

/-- Effect of one inbound event on the persisted store. -/
def step (users : Store) : Op → Store
  | .register e p h t n => (register_user users e p h t n).1
  | .login v e p t => (login_user v users e p t).1
  | .logout tok => (logout_user users tok).1
  | .mine tok n m => (mine_command users tok n m).1
  | .quizGet tok n q => (quiz_command_get users tok n q).1
  | .quizPost tok c n r => (quiz_command_post users tok c n r).1
  | .slots tok r0 r1 r2 j w => (slots_command users tok r0 r1 r2 j w).1
  | .webhook d => (nowpayments_webhook users d).1

/-- Run a sequence of inbound events against a starting store. -/
def run (users : Store) (ops : List Op) : Store :=
  List.foldl step users ops

/-- The random draws of an event lie in the ranges the code draws them from
(`random.uniform` bounds), and any finished webhook amount is nonnegative. -/
def Op.rangeValid : Op → Prop
  | .mine _ _ m => 1/10000 ≤ m ∧ m ≤ 1/1000
  | .quizPost _ _ _ r => 1/100000 ≤ r ∧ r ≤ 1/20000
  | .slots _ _ _ _ j w => (1/1000 ≤ j ∧ j ≤ 1/500) ∧ (1/20000 ≤ w ∧ w ≤ 1/10000)
  | .webhook d => ∀ pl a, d = some pl → pl.pay_amount = some (some a) → 0 ≤ a
  | _ => True

/-! ## Store lemmas -/

/-- A scan over an entrywise-rewritten list, with a predicate the rewrite
does not affect, finds the rewrite of whatever the original scan finds. -/
theorem find?_map_of_pred_eq {α : Type} (g : α → α) (p : α → Bool) :
    ∀ (l : List α), (∀ a ∈ l, p (g a) = p a) →
      List.find? p (List.map g l) = Option.map g (List.find? p l) := by
  intro l
  induction l with
  | nil => exact fun _ => rfl
  | cons a t ih =>
    intro h
    have ha : p (g a) = p a := h a (by simp)
    have ht : ∀ b ∈ t, p (g b) = p b := fun b hb => h b (by simp [hb])
    cases hpa : p a with
    | true =>
      rw [List.map_cons, List.find?_cons_of_pos _ (by rw [ha, hpa]),
          List.find?_cons_of_pos _ hpa, Option.map_some']
    | false =>
      rw [List.map_cons, List.find?_cons_of_neg _ (by simp [ha, hpa]),
          List.find?_cons_of_neg _ (by simp [hpa]), ih ht]

/-- Resolving a token after rewriting one user's record with a
token-preserving rewrite resolves as before, up to that rewrite. -/
theorem get_user_by_session_token_updateUser (users : Store) (k : String)
    (f : UserRecord → UserRecord) (hf : ∀ u, (f u).session_token = u.session_token)
    (tok : String) :
    get_user_by_session_token (updateUser users k f) tok =
      Option.map (fun p => if p.1 = k then (p.1, f p.2) else p)
        (get_user_by_session_token users tok) := by
  unfold get_user_by_session_token updateUser
  apply find?_map_of_pred_eq
  intro a _
  by_cases h : a.1 = k <;> simp [h, hf]

/-- The credential scan after a token-only rewrite of one user's record
finds the same user, up to that rewrite. -/
theorem findCredential_updateUser (verify : String → String → Bool)
    (users : Store) (k : String) (f : UserRecord → UserRecord)
    (hf : ∀ u, (f u).email = u.email ∧ (f u).password = u.password)
    (email password : String) :
    findCredential verify (updateUser users k f) email password =
      Option.map (fun p => if p.1 = k then (p.1, f p.2) else p)
        (findCredential verify users email password) := by
  unfold findCredential updateUser
  apply find?_map_of_pred_eq
  intro a _
  by_cases h : a.1 = k <;> simp [h, (hf a.2).1, (hf a.2).2]

/-- Looking up the rewritten key returns the rewritten record. -/
theorem lookupUser_updateUser (users : Store) (k : String)
    (f : UserRecord → UserRecord) :
    lookupUser (updateUser users k f) k = Option.map f (lookupUser users k) := by
  unfold lookupUser updateUser
  rw [find?_map_of_pred_eq (fun p => if p.1 = k then (p.1, f p.2) else p)
        (fun p => p.1 == k) users (by intro a _; by_cases h : a.1 = k <;> simp [h])]
  cases hfind : List.find? (fun p => p.1 == k) users with
  | none => rfl
  | some q =>
    have hq : q.1 = k := by
      have := List.find?_some hfind
      simpa using this
    simp [hq]

/-- Looking up a key other than the rewritten one is unchanged. -/
theorem lookupUser_updateUser_ne (users : Store) (k k' : String)
    (f : UserRecord → UserRecord) (hne : k' ≠ k) :
    lookupUser (updateUser users k f) k' = lookupUser users k' := by
  unfold lookupUser updateUser
  rw [find?_map_of_pred_eq (fun p => if p.1 = k then (p.1, f p.2) else p)
        (fun p => p.1 == k') users (by intro a _; by_cases h : a.1 = k <;> simp [h])]
  cases hfind : List.find? (fun p => p.1 == k') users with
  | none => rfl
  | some q =>
    have hq : q.1 = k' := by
      have := List.find?_some hfind
      simpa using this
    have : ¬ q.1 = k := by rw [hq]; exact hne
    simp [this]

/-- After rewriting key `k` with a rewrite that can never satisfy a scan
predicate, any record the scan finds has a key other than `k`. -/
theorem find?_updateUser_ne (k : String) (f : UserRecord → UserRecord)
    (p : String × UserRecord → Bool) (hp : ∀ key u, p (key, f u) = false) :
    ∀ (users : Store) (q : String × UserRecord),
      List.find? p (updateUser users k f) = some q → q.1 ≠ k := by
  intro users
  induction users with
  | nil => intro q hq; simp [updateUser] at hq
  | cons a t ih =>
    intro q hq
    rw [updateUser, List.map_cons] at hq
    by_cases hak : a.1 = k
    · rw [if_pos hak, List.find?_cons_of_neg _ (by simp [hp])] at hq
      exact ih q hq
    · rw [if_neg hak] at hq
      cases hpa : p a with
      | true =>
        rw [List.find?_cons_of_pos _ hpa] at hq
        cases hq
        exact hak
      | false =>
        rw [List.find?_cons_of_neg _ (by simp [hpa])] at hq
        exact ih q hq

/-- A membership-preserved predicate holds of every record after an
entrywise rewrite that preserves it. -/
theorem forall_updateUser {P : UserRecord → Prop} {users : Store} {k : String}
    {f : UserRecord → UserRecord} (h : ∀ p ∈ users, P p.2)
    (hf : ∀ v, P v → P (f v)) :
    ∀ p ∈ updateUser users k f, P p.2 := by
  intro p hp
  rcases List.mem_map.1 hp with ⟨q, hq, rfl⟩
  by_cases hqk : q.1 = k
  · simpa [hqk] using hf q.2 (h q hq)
  · simpa [hqk] using h q hq

/-- A successful token resolution returns a record of the store. -/
theorem mem_of_get_user_by_session_token {users : Store} {tok : String}
    {p : String × UserRecord} (h : get_user_by_session_token users tok = some p) :
    p ∈ users :=
  List.mem_of_find?_eq_some h

/-- A successful lookup returns a record of the store. -/
theorem mem_of_lookupUser {users : Store} {k : String} {u : UserRecord}
    (h : lookupUser users k = some u) : ∃ p ∈ users, p.2 = u := by
  unfold lookupUser at h
  rcases Option.map_eq_some'.1 h with ⟨q, hq, rfl⟩
  exact ⟨q, List.mem_of_find?_eq_some hq, rfl⟩

/-! ## Preservation lemmas for the per-record invariants -/

/-- Crediting a nonnegative amount keeps every balance nonnegative. -/
theorem update_user_balance_nonneg (users : Store) (uid : String) (a : ℚ)
    (h : ∀ p ∈ users, 0 ≤ p.2.balance) (ha : 0 ≤ a) :
    ∀ p ∈ (update_user_balance users uid a).1, 0 ≤ p.2.balance := by
  unfold update_user_balance
  split
  · exact h
  · split
    · dsimp only
      refine forall_updateUser (P := fun v => 0 ≤ v.balance) h ?_
      intro v hv
      show 0 ≤ v.balance + a * 2
      linarith
    · dsimp only
      refine forall_updateUser (P := fun v => 0 ≤ v.balance) h ?_
      intro v hv
      show 0 ≤ v.balance + a
      linarith

/-- Every record of a store reached by one event from a store of
nonnegative balances, with in-range random draws, has a nonnegative
balance. -/
theorem step_nonneg (users : Store) (op : Op)
    (h : ∀ p ∈ users, 0 ≤ p.2.balance) (hop : op.rangeValid) :
    ∀ p ∈ step users op, 0 ≤ p.2.balance := by
  cases op with
  | register e pw hs t n =>
    simp only [step]
    unfold register_user
    split
    · split
      · exact h
      · split
        · exact h
        · dsimp only
          intro p hp
          rcases List.mem_append.1 hp with hp | hp
          · exact h p hp
          · rcases List.mem_singleton.1 hp with rfl
            norm_num
    · exact h
  | login v e pw t =>
    simp only [step]
    unfold login_user
    split
    · split
      · exact h
      · split
        · dsimp only
          refine forall_updateUser (P := fun v => 0 ≤ v.balance) h ?_
          intro u hu
          exact hu
        · exact h
    · exact h
  | logout tok =>
    simp only [step]
    unfold logout_user
    split
    · exact h
    · split
      · dsimp only
        refine forall_updateUser (P := fun v => 0 ≤ v.balance) h ?_
        intro u hu
        exact hu
      · exact h
  | mine tok n m =>
    obtain ⟨hm, -⟩ := hop
    have hm0 : 0 ≤ m := by linarith
    simp only [step]
    unfold mine_command
    split
    · exact h
    · split
      · exact h
      · rename_i t uid u hres
        have hub : 0 ≤ u.balance := h _ (mem_of_get_user_by_session_token hres)
        split
        · dsimp only
          refine forall_updateUser (P := fun v => 0 ≤ v.balance) h ?_
          intro v hv
          show 0 ≤ u.balance + m
          linarith
        · exact h
  | quizGet tok n q =>
    simp only [step]
    unfold quiz_command_get
    split
    · exact h
    · split
      · exact h
      · split
        · exact h
        · dsimp only
          refine forall_updateUser (P := fun v => 0 ≤ v.balance) h ?_
          intro v hv
          exact hv
  | quizPost tok c n r =>
    obtain ⟨hr, -⟩ := hop
    have hr0 : 0 ≤ r := by linarith
    simp only [step]
    unfold quiz_command_post
    split
    · exact h
    · split
      · exact h
      · rename_i t uid u hres
        have hub : 0 ≤ u.balance := h _ (mem_of_get_user_by_session_token hres)
        split
        · exact h
        · split
          · exact h
          · split
            · dsimp only
              refine forall_updateUser (P := fun v => 0 ≤ v.balance) h ?_
              intro v hv
              show 0 ≤ u.balance + r
              linarith
            · dsimp only
              refine forall_updateUser (P := fun v => 0 ≤ v.balance) h ?_
              intro v hv
              exact hv
  | slots tok r0 r1 r2 j w =>
    obtain ⟨⟨hj, -⟩, ⟨hw, -⟩⟩ := hop
    have hj0 : 0 ≤ j := by linarith
    have hw0 : 0 ≤ w := by linarith
    simp only [step]
    unfold slots_command
    split
    · exact h
    · split
      · exact h
      · rename_i t uid u hres
        have hub : 0 ≤ u.balance := h _ (mem_of_get_user_by_session_token hres)
        split
        · exact h
        · rename_i hb
          have hub2 : SLOT_MACHINE_COST ≤ u.balance := le_of_not_lt hb
          split
          · dsimp only
            refine forall_updateUser (P := fun v => 0 ≤ v.balance) h ?_
            intro v hv
            show 0 ≤ u.balance - SLOT_MACHINE_COST + j
            linarith
          · split
            · dsimp only
              refine forall_updateUser (P := fun v => 0 ≤ v.balance) h ?_
              intro v hv
              show 0 ≤ u.balance - SLOT_MACHINE_COST + w
              linarith
            · dsimp only
              refine forall_updateUser (P := fun v => 0 ≤ v.balance) h ?_
              intro v hv
              show 0 ≤ u.balance - SLOT_MACHINE_COST
              linarith
  | webhook d =>
    simp only [step]
    unfold nowpayments_webhook
    split
    · exact h
    · rename_i pl
      split
      · rename_i oid st hoid hst
        split
        · rename_i amt hamt
          split
          · dsimp only
            refine update_user_balance_nonneg users oid amt h ?_
            exact hop pl amt rfl hamt
          · exact h
        · exact h
      · exact h

/-- Balance nonnegativity is preserved by any event sequence with in-range
random draws. -/
theorem run_nonneg : ∀ (ops : List Op) (users : Store),
    (∀ p ∈ users, 0 ≤ p.2.balance) → (∀ op ∈ ops, op.rangeValid) →
    ∀ p ∈ run users ops, 0 ≤ p.2.balance := by
  intro ops
  induction ops with
  | nil => intro users h _; exact h
  | cons op ops ih =>
    intro users h hops
    have h1 := step_nonneg users op h (hops op (by simp))
    exact ih (step users op) h1 (fun o ho => hops o (by simp [ho]))

/-- Crediting a store in which every "first_deposit" key is present and
False leaves every "first_deposit" key present and False (the doubling
branch fires only when the key is absent). -/
theorem update_user_balance_flag (users : Store) (uid : String) (a : ℚ)
    (h : ∀ p ∈ users, p.2.first_deposit = some false) :
    ∀ p ∈ (update_user_balance users uid a).1, p.2.first_deposit = some false := by
  unfold update_user_balance
  split
  · exact h
  · rename_i u hu
    have hfd : u.first_deposit = some false := by
      rcases mem_of_lookupUser hu with ⟨p, hp, rfl⟩
      exact h p hp
    split
    · rename_i hnone
      rw [hfd] at hnone
      cases hnone
    · dsimp only
      refine forall_updateUser (P := fun v => v.first_deposit = some false) h ?_
      intro v hv
      exact hv

/-- One event preserves "every first_deposit key present and False". -/
theorem step_flag (users : Store) (op : Op)
    (h : ∀ p ∈ users, p.2.first_deposit = some false) :
    ∀ p ∈ step users op, p.2.first_deposit = some false := by
  cases op with
  | register e pw hs t n =>
    simp only [step]
    unfold register_user
    split
    · split
      · exact h
      · split
        · exact h
        · dsimp only
          intro p hp
          rcases List.mem_append.1 hp with hp | hp
          · exact h p hp
          · rcases List.mem_singleton.1 hp with rfl
            rfl
    · exact h
  | login v e pw t =>
    simp only [step]
    unfold login_user
    split
    · split
      · exact h
      · split
        · dsimp only
          refine forall_updateUser (P := fun v => v.first_deposit = some false) h ?_
          intro u hu
          exact hu
        · exact h
    · exact h
  | logout tok =>
    simp only [step]
    unfold logout_user
    split
    · exact h
    · split
      · dsimp only
        refine forall_updateUser (P := fun v => v.first_deposit = some false) h ?_
        intro u hu
        exact hu
      · exact h
  | mine tok n m =>
    simp only [step]
    unfold mine_command
    split
    · exact h
    · split
      · exact h
      · split
        · dsimp only
          refine forall_updateUser (P := fun v => v.first_deposit = some false) h ?_
          intro v hv
          exact hv
        · exact h
  | quizGet tok n q =>
    simp only [step]
    unfold quiz_command_get
    split
    · exact h
    · split
      · exact h
      · split
        · exact h
        · dsimp only
          refine forall_updateUser (P := fun v => v.first_deposit = some false) h ?_
          intro v hv
          exact hv
  | quizPost tok c n r =>
    simp only [step]
    unfold quiz_command_post
    split
    · exact h
    · split
      · exact h
      · split
        · exact h
        · split
          · exact h
          · split
            · dsimp only
              refine forall_updateUser (P := fun v => v.first_deposit = some false) h ?_
              intro v hv
              exact hv
            · dsimp only
              refine forall_updateUser (P := fun v => v.first_deposit = some false) h ?_
              intro v hv
              exact hv
  | slots tok r0 r1 r2 j w =>
    simp only [step]
    unfold slots_command
    split
    · exact h
    · split
      · exact h
      · split
        · exact h
        · split
          · dsimp only
            refine forall_updateUser (P := fun v => v.first_deposit = some false) h ?_
            intro v hv
            exact hv
          · split
            · dsimp only
              refine forall_updateUser (P := fun v => v.first_deposit = some false) h ?_
              intro v hv
              exact hv
            · dsimp only
              refine forall_updateUser (P := fun v => v.first_deposit = some false) h ?_
              intro v hv
              exact hv
  | webhook d =>
    simp only [step]
    unfold nowpayments_webhook
    split
    · exact h
    · split
      · split
        · split
          · dsimp only
            exact update_user_balance_flag _ _ _ h
          · exact h
        · exact h
      · exact h

/-- "Every first_deposit key present and False" is preserved by any event
sequence. -/
theorem run_flag : ∀ (ops : List Op) (users : Store),
    (∀ p ∈ users, p.2.first_deposit = some false) →
    ∀ p ∈ run users ops, p.2.first_deposit = some false := by
  intro ops
  induction ops with
  | nil => intro users h; exact h
  | cons op ops ih =>
    intro users h
    exact ih (step users op) (step_flag users op h)

/-! ## Concrete fixtures for counterexamples and witnesses -/

/-- A stand-in for the bcrypt hashing capability. -/
def hashConst : String → String := fun _ => "hashed"

/-- A stand-in for the bcrypt verification capability. -/
def verifyConst : String → String → Bool := fun _ _ => true

/-- The registration event for the fixture user. -/
def regOp : Op := .register (some "alice@example.com") (some "hunter2") hashConst "tok1" 0

/-- The record register_user creates for the fixture user. -/
def aliceRec : UserRecord :=
  { email := "alice@example.com"
    password := "hashed"
    balance := 0
    session_token := some "tok1"
    last_passive_mine := 0
    next_quiz_attempt := 0
    slot_machine_unlocked := false
    first_deposit := some false
    current_question := none }

/-- The store holding exactly the fixture user, as registered. -/
def aliceStore : Store :=
  (register_user [] (some "alice@example.com") (some "hunter2") hashConst "tok1" 0).1

/-- A "finished" confirmation for order "1" over 5 units. -/
def finishedPayload5 : WebhookPayload :=
  { order_id := some "1", payment_status := some "finished", pay_amount := some (some 5) }

/-- A "finished" confirmation for order "1" over -1 units. -/
def negPayload : WebhookPayload :=
  { order_id := some "1", payment_status := some "finished", pay_amount := some (some (-1)) }

/-! ## C1 -/

/-- C1, counterexample: the fixture user's very first credit (5 units through
`update_user_balance`, the only code path with the bonus logic) is applied at
face value, not doubled, and `first_deposit` stays False — registration
already stored the "first_deposit" key (as False), and the bonus fires only
when the key is absent. -/
theorem first_credit_doubling_cex :
    (lookupUser (update_user_balance aliceStore "1" 5).1 "1").map UserRecord.balance
        = some (5 : ℚ) ∧
    (lookupUser (update_user_balance aliceStore "1" 5).1 "1").map UserRecord.balance
        ≠ some (10 : ℚ) ∧
    (lookupUser (update_user_balance aliceStore "1" 5).1 "1").map UserRecord.first_deposit
        = some (some false) := by
  rw [show aliceStore = [("1", aliceRec)] from by decide]
  refine ⟨?_, ?_, ?_⟩ <;>
    norm_num [update_user_balance, lookupUser, updateUser, aliceRec] <;> simp <;>
    exact ⟨_, _, ⟨rfl, rfl⟩, rfl⟩

/-- C1, amended: for every user of a store reachable from empty by any event
sequence, the "first_deposit" key is present with value False (so it never
transitions to True), and consequently `update_user_balance` credits that
user at face value — no credit is ever doubled.  (The mining, quiz and slot
paths bypass `update_user_balance` entirely and always credit face value by
construction.) -/
theorem first_credit_never_doubled (ops : List Op) (uid : String)
    (u : UserRecord) (a : ℚ) (hu : lookupUser (run [] ops) uid = some u) :
    u.first_deposit = some false ∧
    lookupUser (update_user_balance (run [] ops) uid a).1 uid =
      some { u with balance := u.balance + a } := by
  have hflag : ∀ p ∈ run ([] : Store) ops, p.2.first_deposit = some false :=
    run_flag ops [] (by intro p hp; cases hp)
  have hufd : u.first_deposit = some false := by
    rcases mem_of_lookupUser hu with ⟨p, hp, rfl⟩
    exact hflag p hp
  refine ⟨hufd, ?_⟩
  unfold update_user_balance
  split
  · rename_i hnone
    rw [hu] at hnone
    cases hnone
  · rename_i u' hu'
    rw [hu] at hu'
    obtain rfl : u = u' := by injection hu'
    split
    · rename_i hnone
      rw [hufd] at hnone
      cases hnone
    · dsimp only
      rw [lookupUser_updateUser, hu]
      rfl

/-- C1, witness: instantiating the amended theorem on the fixture store and
a credit of 3 units. -/
theorem first_credit_never_doubled_witness :
    lookupUser (update_user_balance (run [] [regOp]) "1" 3).1 "1" =
      some { aliceRec with balance := aliceRec.balance + 3 } :=
  (first_credit_never_doubled [regOp] "1" aliceRec 3 (by decide)).2

/-! ## C2 -/

/-- C2, counterexample: the webhook performs no positivity check on the
confirmed amount, so a "finished" confirmation carrying -1 drives the fixture
user's balance to -1 < 0 after a two-event sequence (register, webhook). -/
theorem negative_balance_cex :
    (lookupUser (run [] [regOp, Op.webhook (some negPayload)]) "1").map
        UserRecord.balance = some (-1 : ℚ) ∧
    (-1 : ℚ) < 0 := by
  have h1 : step ([] : Store) regOp = [("1", aliceRec)] := by decide
  have hs : run [] [regOp, Op.webhook (some negPayload)] =
      (nowpayments_webhook [("1", aliceRec)] (some negPayload)).1 := by
    simp only [run, List.foldl, h1]
    rfl
  rw [hs]
  refine ⟨?_, by norm_num⟩
  norm_num [nowpayments_webhook, update_user_balance, lookupUser, updateUser,
    negPayload, aliceRec]
  simp
  exact ⟨_, _, ⟨rfl, rfl⟩, rfl⟩

/-- C2, amended: over every event sequence whose random reward draws lie in
the ranges the code draws them from and whose webhook amounts are
nonnegative, every stored balance stays nonnegative; and a spin answers
InsufficientFunds exactly when the resolved user's balance is below
SLOT_MACHINE_COST (the only debit path, validated before subtracting). -/
theorem balance_never_negative (ops : List Op)
    (hops : ∀ op ∈ ops, op.rangeValid) :
    (∀ p ∈ run [] ops, 0 ≤ p.2.balance) ∧
    (∀ (users : Store) (tok uid : String) (u : UserRecord)
        (r0 r1 r2 : String) (j w : ℚ),
        get_user_by_session_token users tok = some (uid, u) →
        ((slots_command users (some tok) r0 r1 r2 j w).2 = .insufficientBalance ↔
          u.balance < SLOT_MACHINE_COST)) := by
  constructor
  · exact run_nonneg ops [] (by intro p hp; cases hp) hops
  · intro users tok uid u r0 r1 r2 j w hres
    by_cases hb : u.balance < SLOT_MACHINE_COST
    · simp [slots_command, hres, hb]
    · simp only [slots_command, hres, if_neg hb]
      constructor
      · intro hcontra
        by_cases h3 : r0 = r1 ∧ r1 = r2
        · rw [if_pos h3] at hcontra
          cases hcontra
        · rw [if_neg h3] at hcontra
          by_cases h2 : r0 = r1 ∨ r1 = r2 ∨ r0 = r2
          · rw [if_pos h2] at hcontra
            cases hcontra
          · rw [if_neg h2] at hcontra
            cases hcontra
      · intro hcontra
        exact absurd hcontra hb

/-- C2, witness: instantiating the amended theorem on the one-event sequence
that registers the fixture user, whose stored balance is then 0. -/
theorem balance_never_negative_witness : (0 : ℚ) ≤ aliceRec.balance :=
  (balance_never_negative [regOp]
      (by intro op hop; rcases List.mem_singleton.1 hop with rfl; trivial)).1
    ("1", aliceRec) (by decide)

/-! ## C3 -/

/-- C3: the webhook keeps no record of processed orders, so delivering the
same "finished" confirmation (order "1", amount 5) twice credits twice:
the balance is 5 after one delivery and 10 after the duplicate, not 5. -/
theorem webhook_duplicate_double_credits :
    (lookupUser (nowpayments_webhook aliceStore (some finishedPayload5)).1 "1").map
        UserRecord.balance = some (5 : ℚ) ∧
    (lookupUser
        (nowpayments_webhook (nowpayments_webhook aliceStore (some finishedPayload5)).1
          (some finishedPayload5)).1 "1").map UserRecord.balance = some (10 : ℚ) ∧
    (10 : ℚ) ≠ 5 := by
  rw [show aliceStore = [("1", aliceRec)] from by decide]
  have h1 : (nowpayments_webhook [("1", aliceRec)] (some finishedPayload5)).1 =
      [("1", { aliceRec with balance := 5 })] := by
    norm_num [nowpayments_webhook, update_user_balance, lookupUser, updateUser,
      finishedPayload5, aliceRec]
    simp
  rw [h1]
  refine ⟨?_, ?_, by norm_num⟩ <;>
    norm_num [nowpayments_webhook, update_user_balance, lookupUser, updateUser,
      finishedPayload5, aliceRec] <;> simp <;>
    exact ⟨_, _, ⟨rfl, rfl⟩, rfl⟩

/-! ## Further fixtures -/

/-- The first entry of QUIZ_QUESTIONS, used as a drawn question. -/
def sampleQuestion : QuizQuestion :=
  { question := "Which of the following is the first decentralized cryptocurrency?"
    options := ["Ethereum", "Bitcoin", "Litecoin", "Ripple"]
    answer_index := 1 }

/-- A fixture user holding a pending quiz question. -/
def bobRec : UserRecord :=
  { aliceRec with session_token := some "tokB", current_question := some sampleQuestion }

/-- A fixture user holding enough balance for a spin. -/
def richRec : UserRecord :=
  { aliceRec with balance := 1, session_token := some "tokR" }

/-! ## C4 -/

/-- C4 (confirmed): a quiz POST is rejected with NoActiveQuestion whenever the
resolved user has no pending question (in particular before any GET), and
after a resolving POST with an integer answer (correct or not) the pending
question is cleared, so a second POST without a new GET is rejected with
NoActiveQuestion as well. -/
theorem quiz_post_requires_active_question
    (users : Store) (tok uid : String) (u : UserRecord)
    (hres : get_user_by_session_token users tok = some (uid, u)) :
    (u.current_question = none →
      ∀ (ci : Option Int) (now : Int) (r : ℚ),
        quiz_command_post users (some tok) ci now r = (users, .noActiveQuestion)) ∧
    (∀ (q : QuizQuestion) (i : Int) (now : Int) (r : ℚ),
      u.current_question = some q →
      ∀ (ci2 : Option Int) (now2 : Int) (r2 : ℚ),
        quiz_command_post ((quiz_command_post users (some tok) (some i) now r).1)
            (some tok) ci2 now2 r2 =
          ((quiz_command_post users (some tok) (some i) now r).1,
           .noActiveQuestion)) := by
  constructor
  · intro hq ci now r
    simp [quiz_command_post, hres, hq]
  · intro q i now r hq ci2 now2 r2
    by_cases hc : i = q.answer_index
    · have hstep : (quiz_command_post users (some tok) (some i) now r).1 =
          updateUser users uid
            (fun v => { v with balance := u.balance + r, current_question := none }) := by
        simp [quiz_command_post, hres, hq, hc]
      have hres2 : get_user_by_session_token
          ((quiz_command_post users (some tok) (some i) now r).1) tok =
          some (uid, { u with balance := u.balance + r, current_question := none }) := by
        rw [hstep, get_user_by_session_token_updateUser _ _ _ (by intro v; rfl), hres]
        simp
      generalize hgen : (quiz_command_post users (some tok) (some i) now r).1 = s2
        at hres2 ⊢
      simp [quiz_command_post, hres2]
    · have hstep : (quiz_command_post users (some tok) (some i) now r).1 =
          updateUser users uid
            (fun v => { v with next_quiz_attempt := now + 60,
                               current_question := none }) := by
        simp [quiz_command_post, hres, hq, hc]
      have hres2 : get_user_by_session_token
          ((quiz_command_post users (some tok) (some i) now r).1) tok =
          some (uid, { u with next_quiz_attempt := now + 60,
                              current_question := none }) := by
        rw [hstep, get_user_by_session_token_updateUser _ _ _ (by intro v; rfl), hres]
        simp
      generalize hgen : (quiz_command_post users (some tok) (some i) now r).1 = s2
        at hres2 ⊢
      simp [quiz_command_post, hres2]

/-- C4, witness: a POST with no pending question on the fixture store is
rejected with NoActiveQuestion. -/
theorem quiz_post_requires_active_question_witness :
    quiz_command_post [("1", aliceRec)] (some "tok1") none 0 0 =
      ([("1", aliceRec)], .noActiveQuestion) :=
  (quiz_post_requires_active_question [("1", aliceRec)] "tok1" "1" aliceRec
      (by decide)).1 rfl none 0 0

/-! ## C5 -/

/-- C5 (confirmed): an incorrect answer on a pending question returns the
cooldown deadline now + 60 s, stores exactly that deadline and clears the
pending question while leaving every other field (in particular the balance)
unchanged; a GET strictly before the deadline fails with the cooldown, and a
GET at or after the deadline returns the freshly drawn question. -/
theorem quiz_incorrect_cooldown
    (users : Store) (tok uid : String) (u : UserRecord) (q : QuizQuestion)
    (i : Int) (now : Int) (r : ℚ)
    (hres : get_user_by_session_token users tok = some (uid, u))
    (hq : u.current_question = some q)
    (hwrong : i ≠ q.answer_index) :
    (quiz_command_post users (some tok) (some i) now r).2 = .incorrect (now + 60) ∧
    get_user_by_session_token ((quiz_command_post users (some tok) (some i) now r).1)
        tok =
      some (uid, { u with next_quiz_attempt := now + 60, current_question := none }) ∧
    (∀ (now2 : Int) (q2 : QuizQuestion), now2 < now + 60 →
      quiz_command_get ((quiz_command_post users (some tok) (some i) now r).1)
          (some tok) now2 q2 =
        ((quiz_command_post users (some tok) (some i) now r).1,
         .cooldown (Int.emod (now + 60 - now2) 86400))) ∧
    (∀ (now2 : Int) (q2 : QuizQuestion), now + 60 ≤ now2 →
      (quiz_command_get ((quiz_command_post users (some tok) (some i) now r).1)
          (some tok) now2 q2).2 = .question q2.question q2.options) := by
  have hstep : (quiz_command_post users (some tok) (some i) now r).1 =
      updateUser users uid
        (fun v => { v with next_quiz_attempt := now + 60,
                           current_question := none }) := by
    simp [quiz_command_post, hres, hq, hwrong]
  have hres2 : get_user_by_session_token
      ((quiz_command_post users (some tok) (some i) now r).1) tok =
      some (uid, { u with next_quiz_attempt := now + 60,
                          current_question := none }) := by
    rw [hstep, get_user_by_session_token_updateUser _ _ _ (by intro v; rfl), hres]
    simp
  refine ⟨?_, hres2, ?_, ?_⟩
  · simp [quiz_command_post, hres, hq, hwrong]
  · intro now2 q2 hlt
    have hres3 := hres2
    generalize hgen : (quiz_command_post users (some tok) (some i) now r).1 = s2
      at hres3 ⊢
    simp [quiz_command_get, hres3, hlt]
  · intro now2 q2 hge
    have hnlt : ¬ now2 < now + 60 := not_lt.2 hge
    have hres3 := hres2
    generalize hgen : (quiz_command_post users (some tok) (some i) now r).1 = s2
      at hres3 ⊢
    simp [quiz_command_get, hres3, hnlt]

/-- C5, witness: the fixture user answers 0 on the pending question (whose
correct index is 1) at time 100, and the deadline 160 is returned. -/
theorem quiz_incorrect_cooldown_witness :
    (quiz_command_post [("1", bobRec)] (some "tokB") (some 0) 100 (1/50000)).2 =
      .incorrect 160 :=
  (quiz_incorrect_cooldown [("1", bobRec)] "tokB" "1" bobRec sampleQuestion 0 100
      (1/50000) (by decide) (by decide) (by decide)).1

/-! ## C6 -/

/-- C6 (confirmed): with a clock not behind the stored stamp, a mine attempt
strictly less than MINING_INTERVAL_SECONDS after last_passive_mine fails
with the cooldown, reporting whole minutes and seconds as integer division
and remainder of the remaining whole seconds; otherwise it credits the drawn
reward (any value in the drawn range [0.0001, 0.001]), stamps
last_passive_mine = now, and returns the reward and new balance. -/
theorem mine_spec
    (users : Store) (tok uid : String) (u : UserRecord) (now : Int) (m : ℚ)
    (hres : get_user_by_session_token users tok = some (uid, u))
    (hclock : u.last_passive_mine ≤ now)
    (hm : 1/10000 ≤ m ∧ m ≤ 1/1000) :
    (now - u.last_passive_mine < MINING_INTERVAL_SECONDS →
      mine_command users (some tok) now m =
        (users,
         .cooldown
           (Int.ediv (u.last_passive_mine + MINING_INTERVAL_SECONDS - now) 60)
           (Int.emod (u.last_passive_mine + MINING_INTERVAL_SECONDS - now) 60))) ∧
    (MINING_INTERVAL_SECONDS ≤ now - u.last_passive_mine →
      (mine_command users (some tok) now m).2 = .success m (u.balance + m) ∧
      get_user_by_session_token ((mine_command users (some tok) now m).1) tok =
        some (uid, { u with balance := u.balance + m, last_passive_mine := now })) := by
  constructor
  · intro hcool
    have hnc : ¬ MINING_INTERVAL_SECONDS ≤ now - u.last_passive_mine := not_le.2 hcool
    have h600 : MINING_INTERVAL_SECONDS = (600 : Int) := rfl
    have hmod : Int.emod (u.last_passive_mine + MINING_INTERVAL_SECONDS - now) 86400 =
        u.last_passive_mine + MINING_INTERVAL_SECONDS - now := by
      apply Int.emod_eq_of_lt
      · rw [h600] at hcool ⊢
        linarith
      · rw [h600] at hcool ⊢
        linarith
    simp [mine_command, hres, hnc, hmod]
  · intro hsucc
    constructor
    · simp [mine_command, hres, hsucc]
    · have hstep : (mine_command users (some tok) now m).1 =
          updateUser users uid
            (fun v => { v with balance := u.balance + m, last_passive_mine := now }) := by
        simp [mine_command, hres, hsucc]
      rw [hstep, get_user_by_session_token_updateUser _ _ _ (by intro v; rfl), hres]
      simp

/-- C6, witness: the fixture user (stamp 0) succeeds at time 600 with a draw
of 1/2000, and the new balance is the old plus the draw. -/
theorem mine_spec_witness :
    (mine_command [("1", aliceRec)] (some "tok1") 600 (1/2000)).2 =
      .success (1/2000) (aliceRec.balance + 1/2000) :=
  ((mine_spec [("1", aliceRec)] "tok1" "1" aliceRec 600 (1/2000)
      (by decide) (by decide) (by norm_num)).2 (by decide)).1

/-! ## C7 -/

/-- C7 (confirmed): a spin with sufficient balance always debits
SLOT_MACHINE_COST, and resolves in priority order: three equal reels pay the
jackpot draw; otherwise any pairwise-equal combination pays the small-win
draw; otherwise nothing is credited — each case returning and storing the
post-cost balance plus the prize, for any draws in the drawn ranges and any
reels from the 6-symbol alphabet. -/
theorem slots_spec
    (users : Store) (tok uid : String) (u : UserRecord)
    (r0 r1 r2 : String) (j w : ℚ)
    (hres : get_user_by_session_token users tok = some (uid, u))
    (hbal : SLOT_MACHINE_COST ≤ u.balance)
    (hsym : r0 ∈ symbols ∧ r1 ∈ symbols ∧ r2 ∈ symbols)
    (hj : 1/1000 ≤ j ∧ j ≤ 1/500) (hw : 1/20000 ≤ w ∧ w ≤ 1/10000) :
    (r0 = r1 ∧ r1 = r2 →
      (slots_command users (some tok) r0 r1 r2 j w).2 =
        .spun r0 r1 r2 (.jackpot j) (u.balance - SLOT_MACHINE_COST + j) ∧
      get_user_by_session_token ((slots_command users (some tok) r0 r1 r2 j w).1) tok =
        some (uid, { u with balance := u.balance - SLOT_MACHINE_COST + j })) ∧
    (¬(r0 = r1 ∧ r1 = r2) → (r0 = r1 ∨ r1 = r2 ∨ r0 = r2) →
      (slots_command users (some tok) r0 r1 r2 j w).2 =
        .spun r0 r1 r2 (.smallWin w) (u.balance - SLOT_MACHINE_COST + w) ∧
      get_user_by_session_token ((slots_command users (some tok) r0 r1 r2 j w).1) tok =
        some (uid, { u with balance := u.balance - SLOT_MACHINE_COST + w })) ∧
    (¬(r0 = r1 ∧ r1 = r2) → ¬(r0 = r1 ∨ r1 = r2 ∨ r0 = r2) →
      (slots_command users (some tok) r0 r1 r2 j w).2 =
        .spun r0 r1 r2 .loss (u.balance - SLOT_MACHINE_COST) ∧
      get_user_by_session_token ((slots_command users (some tok) r0 r1 r2 j w).1) tok =
        some (uid, { u with balance := u.balance - SLOT_MACHINE_COST })) := by
  have hnl : ¬ u.balance < SLOT_MACHINE_COST := not_lt.2 hbal
  refine ⟨?_, ?_, ?_⟩
  · intro h3
    constructor
    · simp [slots_command, hres, hnl, h3.1, h3.2]
    · have hstep : (slots_command users (some tok) r0 r1 r2 j w).1 =
          updateUser users uid
            (fun v => { v with balance := u.balance - SLOT_MACHINE_COST + j }) := by
        simp [slots_command, hres, hnl, h3.1, h3.2]
      rw [hstep, get_user_by_session_token_updateUser _ _ _ (by intro v; rfl), hres]
      simp
  · intro h3 h2
    constructor
    · simp [slots_command, hres, hnl, h3, h2]
    · have hstep : (slots_command users (some tok) r0 r1 r2 j w).1 =
          updateUser users uid
            (fun v => { v with balance := u.balance - SLOT_MACHINE_COST + w }) := by
        simp [slots_command, hres, hnl, h3, h2]
      rw [hstep, get_user_by_session_token_updateUser _ _ _ (by intro v; rfl), hres]
      simp
  · intro h3 h2
    constructor
    · simp [slots_command, hres, hnl, h3, h2]
    · have hstep : (slots_command users (some tok) r0 r1 r2 j w).1 =
          updateUser users uid
            (fun v => { v with balance := u.balance - SLOT_MACHINE_COST }) := by
        simp [slots_command, hres, hnl, h3, h2]
      rw [hstep, get_user_by_session_token_updateUser _ _ _ (by intro v; rfl), hres]
      simp

/-- C7, witness: reels A, B, A on the funded fixture user resolve as a small
win of the draw 3/40000, on top of the unconditionally debited cost. -/
theorem slots_spec_witness :
    (slots_command [("1", richRec)] (some "tokR") "A" "B" "A" (3/2000) (3/40000)).2 =
      .spun "A" "B" "A" (.smallWin (3/40000))
        (richRec.balance - SLOT_MACHINE_COST + 3/40000) :=
  ((slots_spec [("1", richRec)] "tokR" "1" richRec "A" "B" "A" (3/2000) (3/40000)
      (by decide) (by norm_num [SLOT_MACHINE_COST, richRec, aliceRec])
      (by decide) (by norm_num) (by norm_num)).2.1 (by decide) (by decide)).1

/-! ## C8 -/

/-- C8, counterexample: a well-formed "finished" confirmation whose orderId
"999" matches no user applies no mutation but is acknowledged with 200
("success"), not rejected as invalid input (400). -/
theorem webhook_unknown_order_cex :
    nowpayments_webhook aliceStore
        (some { order_id := some "999", payment_status := some "finished",
                pay_amount := some (some 1) }) = (aliceStore, .success) ∧
    WebhookResult.success ≠ WebhookResult.invalidData := by
  constructor
  · have hlk : lookupUser aliceStore "999" = none := by decide
    simp [nowpayments_webhook, update_user_balance, hlk]
  · simp

/-- C8, amended: a missing body, or a payload missing the order_id or
payment_status key, is rejected with 400 and mutates nothing; a payload
whose pay_amount is missing or not float-convertible raises an unhandled
exception (500), mutating nothing; and a well-formed "finished" confirmation
with an unknown orderId mutates nothing but is acknowledged with 200
("success"), not rejected as 400. -/
theorem webhook_validation (users : Store) (d : Option WebhookPayload) :
    (d = none → nowpayments_webhook users d = (users, .invalidData)) ∧
    (∀ pl, d = some pl → (pl.order_id = none ∨ pl.payment_status = none) →
      nowpayments_webhook users d = (users, .invalidData)) ∧
    (∀ pl oid st, d = some pl → pl.order_id = some oid →
      pl.payment_status = some st → (∀ a, pl.pay_amount ≠ some (some a)) →
      nowpayments_webhook users d = (users, .typeError)) ∧
    (∀ pl oid a, d = some pl → pl.order_id = some oid →
      pl.payment_status = some "finished" → pl.pay_amount = some (some a) →
      lookupUser users oid = none →
      nowpayments_webhook users d = (users, .success)) := by
  refine ⟨?_, ?_, ?_, ?_⟩
  · rintro rfl
    rfl
  · rintro pl rfl hmiss
    cases ho : pl.order_id with
    | none => simp [nowpayments_webhook, ho]
    | some oid =>
      cases hst : pl.payment_status with
      | none => simp [nowpayments_webhook, ho, hst]
      | some st =>
        rcases hmiss with h | h
        · rw [ho] at h
          cases h
        · rw [hst] at h
          cases h
  · rintro pl oid st rfl hoid hst hpa
    cases hp2 : pl.pay_amount with
    | none => simp [nowpayments_webhook, hoid, hst, hp2]
    | some o =>
      cases o with
      | none => simp [nowpayments_webhook, hoid, hst, hp2]
      | some a => exact absurd hp2 (hpa a)
  · rintro pl oid a rfl hoid hst hpa hlk
    simp [nowpayments_webhook, hoid, hst, hpa, update_user_balance, hlk]

/-- C8, witness: a delivery with no JSON body on the fixture store is
rejected with 400 and leaves the store unchanged. -/
theorem webhook_validation_witness :
    nowpayments_webhook aliceStore none = (aliceStore, .invalidData) :=
  (webhook_validation aliceStore none).1 rfl

/-! ## C9 -/

/-- C9 (confirmed): a successful login stores the freshly generated token; a
second successful login for the same user stores the second token; and when
the two generated tokens differ, resolving the first token in the resulting
store can no longer yield that user. -/
theorem session_uniqueness
    (verify : String → String → Bool) (users : Store)
    (email pw t1 t2 uid : String) (user : UserRecord)
    (he : email ≠ "") (hp : pw ≠ "")
    (hcred : findCredential verify users email pw = some (uid, user))
    (hne : t2 ≠ t1) :
    (login_user verify users (some email) (some pw) t1).2 = .ok t1 ∧
    (login_user verify ((login_user verify users (some email) (some pw) t1).1)
        (some email) (some pw) t2).2 = .ok t2 ∧
    (∀ q, get_user_by_session_token
        ((login_user verify ((login_user verify users (some email) (some pw) t1).1)
          (some email) (some pw) t2).1) t1 = some q → q.1 ≠ uid) := by
  have hnem : ¬ (email = "" ∨ pw = "") := by simp [he, hp]
  have hs1 : (login_user verify users (some email) (some pw) t1).1 =
      updateUser users uid (fun u => { u with session_token := some t1 }) := by
    simp [login_user, hnem, hcred]
  have hcred2 : findCredential verify
      ((login_user verify users (some email) (some pw) t1).1) email pw =
      some (uid, { user with session_token := some t1 }) := by
    rw [hs1, findCredential_updateUser _ _ _ _ (by intro v; exact ⟨rfl, rfl⟩), hcred]
    simp
  refine ⟨?_, ?_, ?_⟩
  · simp [login_user, hnem, hcred]
  · generalize hgen : (login_user verify users (some email) (some pw) t1).1 = s1
      at hcred2 ⊢
    simp [login_user, hnem, hcred2]
  · intro q hq
    generalize hgen : (login_user verify users (some email) (some pw) t1).1 = s1
      at hcred2 hq
    have hs2 : (login_user verify s1 (some email) (some pw) t2).1 =
        updateUser s1 uid (fun u => { u with session_token := some t2 }) := by
      simp [login_user, hnem, hcred2]
    rw [hs2] at hq
    exact find?_updateUser_ne uid
      (fun u => { u with session_token := some t2 })
      (fun p => p.2.session_token == some t1) (by intro key u'; simp [hne]) _ q hq

/-- C9, witness: two logins of the fixture user with fresh tokens n1 then
n2; the second login hands out n2. -/
theorem session_uniqueness_witness :
    (login_user verifyConst
        ((login_user verifyConst [("1", aliceRec)] (some "alice@example.com")
          (some "x") "n1").1)
        (some "alice@example.com") (some "x") "n2").2 = .ok "n2" :=
  (session_uniqueness verifyConst [("1", aliceRec)] "alice@example.com" "x"
      "n1" "n2" "1" aliceRec (by decide) (by decide) (by decide) (by decide)).2.1

/-! ## C10 -/

/-- C10 (confirmed): registration stamps both last_passive_mine and
next_quiz_attempt with the registration time, so (with a fresh token) a mine
attempt strictly within MINING_INTERVAL_SECONDS of registration fails with
the cooldown, while a quiz GET at any time from registration on succeeds,
because its gate requires now strictly before next_quiz_attempt. -/
theorem register_initializes_gates
    (users : Store) (email pw : String) (hashpw : String → String)
    (token : String) (tReg : Int)
    (he : email ≠ "") (hp : pw ≠ "")
    (hmail : ∀ p ∈ users, p.2.email ≠ email)
    (htok : ∀ p ∈ users, p.2.session_token ≠ some token) :
    (∀ (now : Int) (m : ℚ), now - tReg < MINING_INTERVAL_SECONDS →
      ∃ mins secs,
        (mine_command ((register_user users (some email) (some pw) hashpw token tReg).1)
            (some token) now m).2 = .cooldown mins secs) ∧
    (∀ (now : Int) (q : QuizQuestion), tReg ≤ now →
      (quiz_command_get ((register_user users (some email) (some pw) hashpw token tReg).1)
          (some token) now q).2 = .question q.question q.options) := by
  have hany : List.any users (fun p => p.2.email == email) = false := by
    rw [List.any_eq_false]
    intro p hp2
    simp [hmail p hp2]
  have hnem : ¬ (email = "" ∨ pw = "") := by simp [he, hp]
  have hreg : (register_user users (some email) (some pw) hashpw token tReg).1 =
      users ++ [(toString (List.length users + 1),
        { email := email, password := hashpw pw, balance := 0,
          session_token := some token, last_passive_mine := tReg,
          next_quiz_attempt := tReg, slot_machine_unlocked := false,
          first_deposit := some false, current_question := none })] := by
    simp [register_user, hnem, hany]
  have hresolve : get_user_by_session_token
      ((register_user users (some email) (some pw) hashpw token tReg).1) token =
      some (toString (List.length users + 1),
        { email := email, password := hashpw pw, balance := 0,
          session_token := some token, last_passive_mine := tReg,
          next_quiz_attempt := tReg, slot_machine_unlocked := false,
          first_deposit := some false, current_question := none }) := by
    rw [hreg]
    unfold get_user_by_session_token
    rw [List.find?_append]
    have h1 : List.find? (fun p => p.2.session_token == some token) users = none :=
      List.find?_eq_none.2 (fun p hp2 => by simp [htok p hp2])
    rw [h1]
    simp
  constructor
  · intro now m hcool
    have hnc : ¬ MINING_INTERVAL_SECONDS ≤ now - tReg := not_le.2 hcool
    refine ⟨Int.ediv (Int.emod (tReg + MINING_INTERVAL_SECONDS - now) 86400) 60,
            Int.emod (Int.emod (tReg + MINING_INTERVAL_SECONDS - now) 86400) 60, ?_⟩
    simp [mine_command, hresolve, hnc]
  · intro now q hge
    have hnlt : ¬ now < tReg := not_lt.2 hge
    simp [quiz_command_get, hresolve, hnlt]

/-- C10, witness: the fixture registration at time 0; a quiz GET at time 0
immediately succeeds with the drawn question. -/
theorem register_initializes_gates_witness :
    (quiz_command_get
        ((register_user [] (some "alice@example.com") (some "hunter2") hashConst
          "tok1" 0).1)
        (some "tok1") 0 sampleQuestion).2 =
      .question sampleQuestion.question sampleQuestion.options :=
  (register_initializes_gates [] "alice@example.com" "hunter2" hashConst "tok1" 0
      (by decide) (by decide) (by intro p hp2; cases hp2) (by intro p hp2; cases hp2)).2
    0 sampleQuestion (le_refl 0)

end CryptoHustler
